import Mathlib

/-!
Verification of the mcp-cli plugin/tool runtime.

This file gives a shallow embedding of the core of the mcp-cli repository:
the plugin manager (src/packages/core/src/plugin/manager.ts), the MCP
tool-call dispatcher (src/packages/core/src/mcp/server.ts), the command
registry (src/packages/core/src/commands/registry.ts), the tool-call logger
and the built-in call command, together with theorems about the claimed
properties of those components.

JavaScript values that can flow through JSON are modelled by the inductive
type JsValue (integers stand for the numbers that actually occur; the
claims under study do not depend on non-integer numbers).  JavaScript
Map objects are modelled as insertion-ordered association lists with the
Map.set / Map.delete semantics.  Host builtins with fixed semantics
(JSON.stringify, Buffer.byteLength) are given executable models;
JSON.parse, whose result never matters for the claims, is abstracted as a
function parameter.
-/

namespace McpCli

/-! ## Association lists with JavaScript Map semantics -/

/-- Lookup in an insertion-ordered association list (JS Map.get). -/
def alGet {β : Type} : List (String × β) → String → Option β
  | [], _ => none
  | (k2, v) :: rest, k => if k2 = k then some v else alGet rest k

/-- JS Map.set: replace in place when the key exists, append otherwise. -/
def alSet {β : Type} : List (String × β) → String → β → List (String × β)
  | [], k, v => [(k, v)]
  | (k2, v2) :: rest, k, v =>
    if k2 = k then (k2, v) :: rest else (k2, v2) :: alSet rest k v

/-- JS Map.delete: remove the entry with the given key, if present. -/
def alErase {β : Type} : List (String × β) → String → List (String × β)
  | [], _ => []
  | (k2, v2) :: rest, k => if k2 = k then rest else (k2, v2) :: alErase rest k

/-- The keys of an association list are pairwise distinct (a JS Map invariant). -/
def keysNodup {β : Type} (l : List (String × β)) : Prop :=
  (l.map Prod.fst).Nodup

/-! ## JSON-serializable JavaScript values -/

/-- A JSON-serializable JavaScript value.  Numbers are modelled as integers:
the dispatcher claims never depend on non-integer numbers, and for integers
the JavaScript conversions String(n) and JSON.stringify(n) agree with the
decimal representation used here. -/
inductive JsValue : Type where
  | null : JsValue
  | bool (b : Bool) : JsValue
  | num (n : Int) : JsValue
  | str (s : String) : JsValue
  | arr (items : List JsValue) : JsValue
  | obj (fields : List (String × JsValue)) : JsValue

/-- The JavaScript test typeof v === "object": true for null, arrays and
objects, false for booleans, numbers and strings. -/
def JsValue.typeofObject : JsValue → Bool
  | .null => true
  | .arr _ => true
  | .obj _ => true
  | _ => false

/-- JavaScript String(v) for primitive values (the dispatcher only applies
it to non-object values). -/
def jsToString : JsValue → String
  | .null => "null"
  | .bool true => "true"
  | .bool false => "false"
  | .num n => toString n
  | .str s => s
  | .arr _ => ""
  | .obj _ => ""

/-- Hexadecimal digit for a value below 16. -/
def hexDigit (n : Nat) : Char :=
  if n < 10 then Char.ofNat (48 + n) else Char.ofNat (87 + n)

/-- The escape of one character inside a JSON string literal, as produced
by JavaScript JSON.stringify. -/
def jsonEscapeChar (c : Char) : List Char :=
  if c = '"' then ['\\', '"']
  else if c = '\\' then ['\\', '\\']
  else if c = '\x08' then ['\\', 'b']
  else if c = '\x09' then ['\\', 't']
  else if c = '\x0a' then ['\\', 'n']
  else if c = '\x0c' then ['\\', 'f']
  else if c = '\x0d' then ['\\', 'r']
  else if c.toNat < 32 then
    ['\\', 'u', '0', '0', hexDigit (c.toNat / 16), hexDigit (c.toNat % 16)]
  else [c]

/-- JSON.stringify applied to a string: the quoted, escaped string literal. -/
def jsonQuote (s : String) : String :=
  ⟨'"' :: (s.data.flatMap jsonEscapeChar ++ ['"'])⟩

mutual

/-- Compact JSON.stringify (no indentation argument). -/
def jsonStringify : JsValue → String
  | .null => "null"
  | .bool true => "true"
  | .bool false => "false"
  | .num n => toString n
  | .str s => jsonQuote s
  | .arr items => "[" ++ jsonStringifyItems items ++ "]"
  | .obj fields => "\x7b" ++ jsonStringifyFields fields ++ "\x7d"

/-- Comma-separated compact serialization of array items. -/
def jsonStringifyItems : List JsValue → String
  | [] => ""
  | [v] => jsonStringify v
  | v :: rest => jsonStringify v ++ "," ++ jsonStringifyItems rest

/-- Comma-separated compact serialization of object fields. -/
def jsonStringifyFields : List (String × JsValue) → String
  | [] => ""
  | [(k, v)] => jsonQuote k ++ ":" ++ jsonStringify v
  | (k, v) :: rest => jsonQuote k ++ ":" ++ jsonStringify v ++ "," ++ jsonStringifyFields rest

end

/-- n copies of the space character (the indentation of JSON.stringify with
gap 2 at depth n/2). -/
def spaces (n : Nat) : String :=
  ⟨List.replicate n ' '⟩

mutual

/-- JSON.stringify(v, null, 2): pretty-printed JSON with two-space
indentation, exactly as produced by JavaScript.  The argument is the
current indentation width. -/
def jsonStringifyPretty (ind : Nat) : JsValue → String
  | .null => "null"
  | .bool true => "true"
  | .bool false => "false"
  | .num n => toString n
  | .str s => jsonQuote s
  | .arr [] => "[]"
  | .arr (v :: rest) =>
    "[\n" ++ jsonPrettyItems (ind + 2) v rest ++ "\n" ++ spaces ind ++ "]"
  | .obj [] => "\x7b\x7d"
  | .obj ((k, v) :: rest) =>
    "\x7b\n" ++ jsonPrettyFields (ind + 2) k v rest ++ "\n" ++ spaces ind ++ "\x7d"
termination_by v => sizeOf v
decreasing_by
  all_goals simp_wf
  all_goals omega

/-- Pretty-printed array items, one per line, comma-separated. -/
def jsonPrettyItems (ind : Nat) (v : JsValue) : List JsValue → String
  | [] => spaces ind ++ jsonStringifyPretty ind v
  | w :: rest =>
    spaces ind ++ jsonStringifyPretty ind v ++ ",\n" ++ jsonPrettyItems ind w rest
termination_by rest => 1 + sizeOf v + sizeOf rest
decreasing_by
  all_goals simp_wf
  all_goals omega

/-- Pretty-printed object fields, one per line, comma-separated. -/
def jsonPrettyFields (ind : Nat) (k : String) (v : JsValue) :
    List (String × JsValue) → String
  | [] => spaces ind ++ jsonQuote k ++ ": " ++ jsonStringifyPretty ind v
  | (k2, v2) :: rest =>
    spaces ind ++ jsonQuote k ++ ": " ++ jsonStringifyPretty ind v ++ ",\n" ++
      jsonPrettyFields ind k2 v2 rest
termination_by rest => 1 + sizeOf v + sizeOf rest
decreasing_by
  all_goals simp_wf
  all_goals omega

end

/-- byteSize from src/packages/core/src/mcp/server.ts applied to a
structured value: Buffer.byteLength(JSON.stringify(value), "utf8"). -/
def byteSizeVal (v : JsValue) : Nat :=
  (jsonStringify v).utf8ByteSize

/-- byteSize applied to a string value: JSON.stringify of a string is the
quoted escaped literal, whose UTF-8 length is then taken. -/
def byteSizeStr (s : String) : Nat :=
  (jsonQuote s).utf8ByteSize

/-! ## Plugin model (src/packages/core/src/plugin/types.ts, manager.ts) -/

/-- An MCP tool exported by a plugin (interface McpTool).  The handler is
modelled as a pure function from the parameter object to either a thrown
error message or a returned value. -/
structure McpTool : Type where
  name : String
  description : String
  inputSchema : JsValue
  handler : JsValue → Except String JsValue

/-- PluginManifest: name, semver string, description. -/
structure PluginManifest : Type where
  name : String
  version : String
  description : String

/-- The Plugin interface, restricted to the members the claims depend on.
getMcpTools is optional in the source; init is modelled by the result it
produces; onEnable and onDisable hooks are modelled by their presence. -/
structure Plugin : Type where
  manifest : PluginManifest
  getMcpTools : Option (List McpTool)
  hasOnEnable : Bool
  hasOnDisable : Bool
  initResult : Except String Unit

/-- PluginInfo from manager.ts: the plugin, the enabled flag, and the set
of disabled tool names (without plugin prefix), modelled as a list with
membership as the set query. -/
structure PluginInfo : Type where
  plugin : Plugin
  enabled : Bool
  disabledTools : List String

/-- The PluginManager's private plugins map: registration name to
PluginInfo, insertion ordered. -/
structure ManagerState : Type where
  plugins : List (String × PluginInfo)

/-- A tool as returned by PluginManager.getMcpTools: the tool fields with
the name prefixed by the plugin name and the origin-plugin annotation. -/
structure PrefTool : Type where
  name : String
  description : String
  inputSchema : JsValue
  handler : JsValue → Except String JsValue
  plugin : String

/-- The tools a plugin reports: plugin.getMcpTools?.() ?? []. -/
def pluginToolList (p : Plugin) : List McpTool :=
  p.getMcpTools.getD []

/-- PluginManager.getMcpTools: all tools of enabled plugins whose local
name is not in the plugin's disabled set, renamed to the fully-qualified
form and annotated with the origin plugin. -/
def getMcpTools (s : ManagerState) : List PrefTool :=
  s.plugins.flatMap fun pi =>
    if pi.2.enabled then
      (pluginToolList pi.2.plugin).filterMap fun t =>
        if pi.2.disabledTools.contains t.name then none
        else some { name := pi.1 ++ "_" ++ t.name, description := t.description,
                    inputSchema := t.inputSchema, handler := t.handler, plugin := pi.1 }
    else []

/-- A tool as presented in a tools/list response. -/
structure ToolListItem : Type where
  name : String
  description : String
  inputSchema : JsValue

/-- The ListToolsRequestSchema handler of src/packages/core/src/mcp/server.ts:
maps getMcpTools to name, description and inputSchema. -/
def listTools (s : ManagerState) : List ToolListItem :=
  (getMcpTools s).map fun t =>
    { name := t.name, description := t.description, inputSchema := t.inputSchema }

/-! ## Tool-call logger entries (src/unnamed/part_011) -/

/-- ToolCallLog.  The timestamp is the reading of the clock when the entry
was produced; duration is an integer since it is the difference of two
clock readings. -/
structure ToolCallLog : Type where
  timestamp : Int
  clientId : String
  tool : String
  params : JsValue
  success : Bool
  error : Option String
  duration : Int
  requestBytes : Nat
  responseBytes : Nat

/-! ## MCP tool-call dispatcher (src/packages/core/src/mcp/server.ts) -/

/-- A tools/call response: the text contents and the isError flag. -/
structure CallResponse : Type where
  content : List String
  isError : Bool

/-- What one invocation of the CallToolRequestSchema handler produces: the
response, the ToolCallLog entries logged during the invocation, and the
fully-qualified names of the tool handlers that were invoked. -/
structure DispatchResult : Type where
  response : CallResponse
  logs : List ToolCallLog
  invoked : List String

/-- The stringification of a handler result in server.ts:
typeof result === "object" gives JSON.stringify(result, null, 2), any
other result goes through String(result). -/
def stringifyResult (v : JsValue) : String :=
  if v.typeofObject then jsonStringifyPretty 0 v else jsToString v

/-- The CallToolRequestSchema handler.  t0 is the Date.now() reading at
entry (startTime), t1 the reading when the handler has completed and the
log entry is produced. -/
def handleCallTool (s : ManagerState) (clientId : String) (toolName : String)
    (args : Option JsValue) (t0 t1 : Int) : DispatchResult :=
  let params := args.getD (.obj [])
  match (getMcpTools s).find? (fun t => t.name = toolName) with
  | none =>
    let errorText := "Unknown tool: " ++ toolName
    { response := { content := [errorText], isError := true },
      logs := [{ timestamp := t1, clientId := clientId, tool := toolName,
                 params := params, success := false, error := some errorText,
                 duration := t1 - t0, requestBytes := byteSizeVal params,
                 responseBytes := byteSizeStr errorText }],
      invoked := [] }
  | some tool =>
    match tool.handler params with
    | .ok result =>
      let text := stringifyResult result
      { response := { content := [text], isError := false },
        logs := [{ timestamp := t1, clientId := clientId, tool := toolName,
                   params := params, success := true, error := none,
                   duration := t1 - t0, requestBytes := byteSizeVal params,
                   responseBytes := byteSizeStr text }],
        invoked := [toolName] }
    | .error message =>
      let errorText := "Error: " ++ message
      { response := { content := [errorText], isError := true },
        logs := [{ timestamp := t1, clientId := clientId, tool := toolName,
                   params := params, success := false, error := some message,
                   duration := t1 - t0, requestBytes := byteSizeVal params,
                   responseBytes := byteSizeStr errorText }],
        invoked := [toolName] }

/-! ## Command results and CLI exports (src/unnamed/part_011, part_015) -/

/-- CommandResult: output text, success flag, optional structured data. -/
structure CommandResult : Type where
  output : String
  success : Bool
  data : Option JsValue := none

/-- CommandArg: an argument definition (name, description, required flag,
autocomplete choices). -/
structure CommandArg : Type where
  name : String
  description : String := ""
  required : Bool := false
  choices : Option (List String) := none

/-- PluginCliCommand: a CLI verb exported by a plugin.  The execute
operation is modelled as a pure function of the argument list (the
AppState parameter of the source, unused by every claim, is omitted). -/
structure PluginCliCommand : Type where
  name : String
  description : String
  args : List CommandArg := []
  execute : List String → CommandResult

/-- PluginExport: a tagged union of CLI verbs and MCP tools. -/
inductive PluginExport : Type where
  | cli (c : PluginCliCommand)
  | tool (t : McpTool)

/-- A plugin as seen by the built-in call command: its exports mapping. -/
structure ExportsPlugin : Type where
  exports : List (String × PluginExport)

/-- Projection of an export to a tool, when it is one. -/
def asTool : PluginExport → Option McpTool
  | .tool t => some t
  | .cli _ => none

/-- Local names of the tools among a plugin's exports. -/
def exportToolNames (p : ExportsPlugin) : List String :=
  ((p.exports.map Prod.snd).filterMap asTool).map McpTool.name

/-- JS list.join(", ") || "(none)". -/
def joinValues (l : List String) : String :=
  let j := String.intercalate ", " l
  if j = "" then "(none)" else j

/-- Split a key=value argument at the first equals sign; none when the
argument contains no equals sign (indexOf returning -1). -/
def splitEq (arg : String) : Option (String × String) :=
  let k := arg.data.takeWhile (fun c => c ≠ '=')
  if k.length = arg.data.length then none
  else some (⟨k⟩, ⟨arg.data.drop (k.length + 1)⟩)

/-- The key=value parsing loop of the call command.  Each value is JSON
parsed with fallback to the raw string; jsonParse abstracts the host
JSON.parse builtin.  An argument without an equals sign aborts the loop
(the source returns the invalid-format result there). -/
def parseKeyVals (jsonParse : String → Option JsValue) :
    List String → List (String × JsValue) → Except String (List (String × JsValue))
  | [], acc => .ok acc
  | arg :: rest, acc =>
    match splitEq arg with
    | none => .error arg
    | some (k, v) => parseKeyVals jsonParse rest (alSet acc k ((jsonParse v).getD (.str v)))

/-- What one execution of the built-in call command produces. -/
structure CliCallResult : Type where
  result : CommandResult
  logs : List ToolCallLog
  invoked : List String

/-- The usage result of the call command when no plugin argument was
given (the JS truthiness test covers a missing argument and the empty
string alike). -/
def callUsageResult (plugins : List (String × ExportsPlugin)) : CliCallResult :=
  { result := { output := "Usage: tool <plugin> <tool_name> [key=value ...]\nAvailable plugins: " ++ joinValues (plugins.map Prod.fst),
                success := false },
    logs := [], invoked := [] }

/-- The result of the call command when the tool argument is missing. -/
def callMissingToolResult (plugins : List (String × ExportsPlugin))
    (pluginNameArg : String) : CliCallResult :=
  match alGet plugins pluginNameArg with
  | none =>
    { result := { output := "Plugin not found: " ++ pluginNameArg ++ "\nAvailable: " ++ joinValues (plugins.map Prod.fst),
                  success := false },
      logs := [], invoked := [] }
  | some plugin =>
    { result := { output := "Usage: tool " ++ pluginNameArg ++ " <tool_name> [key=value ...]\nAvailable tools: " ++ joinValues (exportToolNames plugin),
                  success := false },
      logs := [], invoked := [] }

/-- The execute operation of the built-in call command
(src/unnamed/part_010).  The JS truthiness tests on the destructured
positional arguments cover a missing argument and the empty string alike,
which the list matches together with the emptiness tests reproduce.  The
lookup of the tool among Object.values of the exports with a combined
type-and-name predicate is expressed as a filterMap to the tools followed
by find, which selects the same first matching export.  t0 is the
startTime reading, t1 the reading at the log call. -/
def callCommandExecute (plugins : List (String × ExportsPlugin))
    (jsonParse : String → Option JsValue) (args : List String)
    (t0 t1 : Int) : CliCallResult :=
  match args with
  | [] => callUsageResult plugins
  | pluginNameArg :: rest =>
    if pluginNameArg = "" then callUsageResult plugins
    else
      match rest with
      | [] => callMissingToolResult plugins pluginNameArg
      | toolName :: toolArgs =>
        if toolName = "" then callMissingToolResult plugins pluginNameArg
        else
          match alGet plugins pluginNameArg with
          | none =>
            { result := { output := "Plugin not found: " ++ pluginNameArg ++ "\nAvailable: " ++ joinValues (plugins.map Prod.fst),
                          success := false },
              logs := [], invoked := [] }
          | some plugin =>
            match ((plugin.exports.map Prod.snd).filterMap asTool).find?
                (fun t => t.name = toolName) with
            | none =>
              { result := { output := "Tool not found: " ++ toolName ++ "\nAvailable tools in " ++ pluginNameArg ++ ": " ++ joinValues (exportToolNames plugin),
                            success := false },
                logs := [], invoked := [] }
            | some tool =>
              match parseKeyVals jsonParse toolArgs [] with
              | .error arg =>
                { result := { output := "Invalid argument format: " ++ arg ++ "\nExpected: key=value",
                              success := false },
                  logs := [], invoked := [] }
              | .ok fields =>
                let params : JsValue := .obj fields
                let fullToolName := pluginNameArg ++ "_" ++ toolName
                let requestBytes := byteSizeVal params
                match tool.handler params with
                | .ok result0 =>
                  let output := stringifyResult result0
                  { result := { output := "[" ++ pluginNameArg ++ "] " ++ output, success := true },
                    logs := [{ timestamp := t1, clientId := "cli", tool := fullToolName,
                               params := params, success := true, error := none,
                               duration := t1 - t0, requestBytes := requestBytes,
                               responseBytes := byteSizeStr output }],
                    invoked := [fullToolName] }
                | .error message =>
                  let errorOutput := "Error: " ++ message
                  { result := { output := "[" ++ pluginNameArg ++ "] " ++ errorOutput, success := false },
                    logs := [{ timestamp := t1, clientId := "cli", tool := fullToolName,
                               params := params, success := false, error := some message,
                               duration := t1 - t0, requestBytes := requestBytes,
                               responseBytes := byteSizeStr errorOutput }],
                    invoked := [fullToolName] }

/-! ## Helper lemmas -/

/-- Appending on the left is cancellative for strings. -/
theorem string_append_cancel {a b c : String} (h : a ++ b = a ++ c) : b = c := by
  cases a with | mk da =>
  cases b with | mk db =>
  cases c with | mk dc =>
  have h2 : da ++ db = da ++ dc := congrArg String.data h
  exact congrArg String.mk (List.append_cancel_left h2)

/-- In an association list with distinct keys, two entries with the same
key carry the same value. -/
theorem keysNodup_eq {β : Type} {l : List (String × β)} {k : String} {a b : β}
    (hnd : keysNodup l) (ha : (k, a) ∈ l) (hb : (k, b) ∈ l) : a = b := by
  induction l with
  | nil => cases ha
  | cons x xs ih =>
    simp only [keysNodup, List.map_cons, List.nodup_cons] at hnd
    rcases List.mem_cons.mp ha with ha2 | ha2 <;> rcases List.mem_cons.mp hb with hb2 | hb2
    · rw [← ha2] at hb2; exact congrArg Prod.snd hb2.symm
    · exact absurd (by rw [← ha2]; exact List.mem_map.mpr ⟨(k, b), hb2, rfl⟩) hnd.1
    · exact absurd (by rw [← hb2]; exact List.mem_map.mpr ⟨(k, a), ha2, rfl⟩) hnd.1
    · exact ih hnd.2 ha2 hb2

/-- Membership characterization of the getMcpTools aggregation. -/
theorem mem_getMcpTools {s : ManagerState} {e : PrefTool} :
    e ∈ getMcpTools s ↔
      ∃ pi ∈ s.plugins, pi.2.enabled = true ∧
        ∃ t ∈ pluginToolList pi.2.plugin,
          pi.2.disabledTools.contains t.name = false ∧
          e = { name := pi.1 ++ "_" ++ t.name, description := t.description,
                inputSchema := t.inputSchema, handler := t.handler, plugin := pi.1 } := by
  simp only [getMcpTools, List.mem_flatMap]
  constructor
  · rintro ⟨pi, hpi, he⟩
    by_cases hen : pi.2.enabled
    · rw [if_pos hen] at he
      rcases List.mem_filterMap.mp he with ⟨t, ht, hsome⟩
      by_cases hdis : pi.2.disabledTools.contains t.name
      · rw [if_pos hdis] at hsome; cases hsome
      · rw [if_neg hdis] at hsome
        exact ⟨pi, hpi, hen, t, ht, by simpa using hdis,
          (Option.some.injEq _ _ ▸ hsome).symm⟩
    · rw [if_neg hen] at he; cases he
  · rintro ⟨pi, hpi, hen, t, ht, hdis, rfl⟩
    refine ⟨pi, hpi, ?_⟩
    rw [if_pos hen]
    refine List.mem_filterMap.mpr ⟨t, ht, ?_⟩
    rw [if_neg]
    intro hcon
    rw [hcon] at hdis
    cases hdis

/-! ## Claim C1 -/

/-- C1: For every loaded plugin P and every tool t exported by P, t appears
in the result of getMcpTools() (and hence in tools/list, which carries
exactly the same names) if and only if P is enabled and t's local name is
not in P's disabled-tool set; when it appears, its exposed name is exactly
P's registration name, an underscore, and t's local name, and it is
annotated with its origin plugin. -/
theorem c1_tool_visibility (s : ManagerState) (p : String) (i : PluginInfo)
    (t : McpTool) (hnd : keysNodup s.plugins) (hp : (p, i) ∈ s.plugins)
    (ht : t ∈ pluginToolList i.plugin) :
    ((∃ e ∈ getMcpTools s, e.plugin = p ∧ e.name = p ++ "_" ++ t.name) ↔
      (i.enabled = true ∧ i.disabledTools.contains t.name = false))
    ∧ (i.enabled = true → i.disabledTools.contains t.name = false →
        ({ name := p ++ "_" ++ t.name, description := t.description,
           inputSchema := t.inputSchema, handler := t.handler,
           plugin := p } : PrefTool) ∈ getMcpTools s)
    ∧ (listTools s).map ToolListItem.name = (getMcpTools s).map PrefTool.name := by
  refine ⟨⟨?_, ?_⟩, ?_, ?_⟩
  · rintro ⟨e, he, heq, hname⟩
    rcases mem_getMcpTools.mp he with ⟨pi, hpi, hen, t2, ht2, hdis, rfl⟩
    simp only at heq hname
    subst heq
    have hieq : pi.2 = i := keysNodup_eq hnd (by exact (Prod.mk.eta (p := pi)) ▸ hpi) hp
    have hname2 : t2.name = t.name := by
      have h3 : (pi.1 ++ "_") ++ t2.name = (pi.1 ++ "_") ++ t.name := hname
      exact string_append_cancel h3
    rw [hieq] at hen hdis
    rw [hname2] at hdis
    exact ⟨hen, hdis⟩
  · rintro ⟨hen, hdis⟩
    refine ⟨_, mem_getMcpTools.mpr ⟨(p, i), hp, hen, t, ht, hdis, rfl⟩, rfl, rfl⟩
  · intro hen hdis
    exact mem_getMcpTools.mpr ⟨(p, i), hp, hen, t, ht, hdis, rfl⟩
  · simp [listTools]

/-! ## Concrete fixtures used by witnesses and counterexamples -/

/-- A demo tool whose handler returns the string "hi". -/
def echoTool : McpTool :=
  { name := "echo", description := "echo a message", inputSchema := .obj [],
    handler := fun _ => .ok (.str "hi") }

/-- A demo tool whose handler throws. -/
def failTool : McpTool :=
  { name := "boom", description := "always throws", inputSchema := .obj [],
    handler := fun _ => .error "kaput" }

/-- A demo plugin exporting the echo and boom tools. -/
def demoPlugin : Plugin :=
  { manifest := { name := "demo", version := "1.0.0", description := "demo plugin" },
    getMcpTools := some [echoTool, failTool],
    hasOnEnable := false, hasOnDisable := false, initResult := .ok () }

/-- A manager state holding the single enabled demo plugin. -/
def demoState : ManagerState :=
  { plugins := [("demo", { plugin := demoPlugin, enabled := true, disabledTools := [] })] }

/-- The demo plugin as seen by the built-in call command. -/
def demoCliPlugins : List (String × ExportsPlugin) :=
  [("demo", { exports := [("echo", .tool echoTool)] })]

/-! ## Claim C3 -/

/-- C3: For every tool-call invocation (via MCP tools/call or the CLI call
verb) whose lookup succeeds so that the handler is invoked, exactly one
ToolCallLog entry is logged for that invocation; its success field is true
if and only if the handler returned without throwing, and its recorded
duration is nonnegative (the difference of two monotone clock readings). -/
theorem c3_handler_logging :
    (∀ (s : ManagerState) (clientId toolName : String) (args : Option JsValue)
        (t0 t1 : Int) (tool : PrefTool),
        (getMcpTools s).find? (fun t => t.name = toolName) = some tool →
        t0 ≤ t1 →
        (handleCallTool s clientId toolName args t0 t1).logs.length = 1 ∧
        (handleCallTool s clientId toolName args t0 t1).logs.map ToolCallLog.success =
          [(tool.handler (args.getD (.obj []))).toBool] ∧
        (handleCallTool s clientId toolName args t0 t1).logs.map ToolCallLog.duration =
          [t1 - t0] ∧
        (0 : Int) ≤ t1 - t0) ∧
    (∀ (plugins : List (String × ExportsPlugin)) (jsonParse : String → Option JsValue)
        (pluginNameArg toolName : String) (toolArgs : List String) (t0 t1 : Int)
        (plugin : ExportsPlugin) (tool : McpTool) (fields : List (String × JsValue)),
        pluginNameArg ≠ "" → toolName ≠ "" →
        alGet plugins pluginNameArg = some plugin →
        ((plugin.exports.map Prod.snd).filterMap asTool).find?
          (fun t => t.name = toolName) = some tool →
        parseKeyVals jsonParse toolArgs [] = .ok fields →
        t0 ≤ t1 →
        (callCommandExecute plugins jsonParse (pluginNameArg :: toolName :: toolArgs) t0 t1).logs.length = 1 ∧
        (callCommandExecute plugins jsonParse (pluginNameArg :: toolName :: toolArgs) t0 t1).logs.map ToolCallLog.success =
          [(tool.handler (.obj fields)).toBool] ∧
        (callCommandExecute plugins jsonParse (pluginNameArg :: toolName :: toolArgs) t0 t1).logs.map ToolCallLog.duration =
          [t1 - t0] ∧
        (0 : Int) ≤ t1 - t0) := by
  constructor
  · intro s clientId toolName args t0 t1 tool hfind hle
    cases hres : tool.handler (args.getD (.obj [])) with
    | ok v =>
      simp [handleCallTool, hfind, hres, Except.toBool, Except.isOk]
      exact hle
    | error msg =>
      simp [handleCallTool, hfind, hres, Except.toBool, Except.isOk]
      exact hle
  · intro plugins jsonParse pluginNameArg toolName toolArgs t0 t1 plugin tool fields
      hp ht hlook hfind hparse hle
    cases hres : tool.handler (.obj fields) with
    | ok v =>
      simp only [callCommandExecute, if_neg hp, if_neg ht, hlook, hfind, hparse, hres,
        Except.toBool, Except.isOk]
      simp
      exact hle
    | error msg =>
      simp only [callCommandExecute, if_neg hp, if_neg ht, hlook, hfind, hparse, hres,
        Except.toBool, Except.isOk]
      simp
      exact hle

/-- Witness for C3 at concrete inputs: the echo tool called over MCP with
clientId stdio and over the CLI call verb. -/
theorem c3_handler_logging_witness :
    (handleCallTool demoState "stdio" "demo_echo" none 0 5).logs.length = 1 ∧
    (callCommandExecute demoCliPlugins (fun _ => none) ["demo", "echo"] 0 5).logs.length = 1 := by
  constructor
  · exact (c3_handler_logging.1 demoState "stdio" "demo_echo" none 0 5
      { name := "demo_echo", description := "echo a message", inputSchema := .obj [],
        handler := fun _ => .ok (.str "hi"), plugin := "demo" }
      rfl (by decide)).1
  · exact (c3_handler_logging.2 demoCliPlugins (fun _ => none) "demo" "echo" [] 0 5
      { exports := [("echo", .tool echoTool)] } echoTool []
      (by decide) (by decide) rfl rfl rfl (by decide)).1

/-! ## Claim C8 -/

/-- C8: For every tools/call whose fully-qualified name matches no
currently visible tool, the dispatcher invokes no handler, returns a
response with isError true whose text is "Unknown tool: name", and logs
exactly one ToolCallLog entry with success false carrying that error
text. -/
theorem c8_unknown_tool (s : ManagerState) (clientId toolName : String)
    (args : Option JsValue) (t0 t1 : Int)
    (h : (getMcpTools s).find? (fun t => t.name = toolName) = none) :
    (handleCallTool s clientId toolName args t0 t1).invoked = [] ∧
    (handleCallTool s clientId toolName args t0 t1).response =
      { content := ["Unknown tool: " ++ toolName], isError := true } ∧
    (handleCallTool s clientId toolName args t0 t1).logs.map
        (fun e => (e.success, e.error)) =
      [(false, some ("Unknown tool: " ++ toolName))] ∧
    (handleCallTool s clientId toolName args t0 t1).logs.length = 1 := by
  simp [handleCallTool, h]

/-- Witness for C8: calling the masked-off name fs_danger on the demo
state (which exposes only demo_echo and demo_boom). -/
theorem c8_unknown_tool_witness :
    (handleCallTool demoState "stdio" "fs_danger" none 0 0).invoked = [] ∧
    (handleCallTool demoState "stdio" "fs_danger" none 0 0).response =
      { content := ["Unknown tool: fs_danger"], isError := true } := by
  have h := c8_unknown_tool demoState "stdio" "fs_danger" none 0 0 rfl
  exact ⟨h.1, h.2.1⟩

/-! ## Claim C4 -/

/-- The reply text as the claim words it: the handler result itself for a
string, the JSON pretty-printed form otherwise. -/
def specReplyText (v : JsValue) : String :=
  match v with
  | .str s2 => s2
  | _ => jsonStringifyPretty 0 v

/-- C4 (amended): For every successful tools/call handled by the
dispatcher, the reply text is the handler's result itself when it is a
string and its JSON pretty-printed form otherwise, and the responseBytes
recorded in the ToolCallLog entry equals the UTF-8 byte length of the
JSON string-literal encoding (JSON.stringify) of that text - the text
wrapped in quotes with JSON escaping - rather than of the raw text. -/
theorem c4_success_text_and_bytes (s : ManagerState) (clientId toolName : String)
    (args : Option JsValue) (t0 t1 : Int) (tool : PrefTool) (v : JsValue)
    (hfind : (getMcpTools s).find? (fun t => t.name = toolName) = some tool)
    (hres : tool.handler (args.getD (.obj [])) = .ok v) :
    (handleCallTool s clientId toolName args t0 t1).response.content =
      [stringifyResult v] ∧
    stringifyResult v = specReplyText v ∧
    (handleCallTool s clientId toolName args t0 t1).logs.map ToolCallLog.responseBytes =
      [(jsonQuote (stringifyResult v)).utf8ByteSize] := by
  refine ⟨?_, ?_, ?_⟩
  · simp [handleCallTool, hfind, hres]
  · cases v with
    | bool b =>
      cases b <;>
        simp [stringifyResult, specReplyText, jsToString, JsValue.typeofObject,
          jsonStringifyPretty]
    | num n =>
      simp [stringifyResult, specReplyText, jsToString, JsValue.typeofObject,
        jsonStringifyPretty]
    | null => rfl
    | str s2 => rfl
    | arr items => rfl
    | obj fields => rfl
  · simp [handleCallTool, hfind, hres, byteSizeStr]

/-- Witness for C4 at the echo tool: the reply text is the returned
string itself and the recorded responseBytes is the length of its JSON
encoding. -/
theorem c4_success_text_and_bytes_witness :
    (handleCallTool demoState "stdio" "demo_echo" none 0 0).response.content = ["hi"] ∧
    (handleCallTool demoState "stdio" "demo_echo" none 0 0).logs.map
      ToolCallLog.responseBytes = [4] := by
  have h := c4_success_text_and_bytes demoState "stdio" "demo_echo" none 0 0
    { name := "demo_echo", description := "echo a message", inputSchema := .obj [],
      handler := fun _ => .ok (.str "hi"), plugin := "demo" }
    (.str "hi") rfl rfl
  exact ⟨h.1, h.2.2⟩

/-- C4 as frozen is false: for a successful call of the echo tool the text
returned to the peer is "hi", whose UTF-8 length is 2, while the recorded
responseBytes is 4, the UTF-8 length of the JSON encoding of that text -
byteSize re-stringifies the already stringified text. -/
theorem c4_counterexample :
    (handleCallTool demoState "stdio" "demo_echo" none 0 0).response.content = ["hi"] ∧
    (handleCallTool demoState "stdio" "demo_echo" none 0 0).logs.map
      ToolCallLog.responseBytes = [4] ∧
    ("hi" : String).utf8ByteSize = 2 ∧
    (handleCallTool demoState "stdio" "demo_echo" none 0 0).logs.map
        ToolCallLog.responseBytes ≠ [("hi" : String).utf8ByteSize] := by
  refine ⟨rfl, rfl, rfl, by decide⟩

/-! ## Tool-call logger history (src/unnamed/part_011, ToolCallLogger) -/

/-- DEFAULT_MAX_SIZE from the logger. -/
def DEFAULT_MAX_SIZE : Nat := 1000

/-- The while loop of ToolCallLogger.log: while the list is longer than
maxSize, shift (drop) the oldest entry from the front. -/
def dropOldest {α : Type} (maxSize : Nat) : List α → List α
  | [] => []
  | a :: rest =>
    if (a :: rest).length > maxSize then dropOldest maxSize rest else a :: rest

/-- The in-memory state of a ToolCallLogger: the history and the capacity
fixed at construction. -/
structure LoggerState : Type where
  history : List ToolCallLog
  maxSize : Nat

/-- A fresh logger with the given capacity (the constructor). -/
def newLogger (maxSize : Nat) : LoggerState :=
  { history := [], maxSize := maxSize }

/-- ToolCallLogger.log restricted to its effect on the in-memory history:
push the entry, then drop oldest entries while over capacity.  (The stats
update, the JSONL append and the subscriber notifications do not touch
the history.) -/
def loggerLog (st : LoggerState) (entry : ToolCallLog) : LoggerState :=
  { st with history := dropOldest st.maxSize (st.history ++ [entry]) }

/-- The shift loop drops exactly the prefix that exceeds the capacity. -/
theorem dropOldest_eq_drop {α : Type} (m : Nat) (l : List α) :
    dropOldest m l = l.drop (l.length - m) := by
  induction l with
  | nil => simp [dropOldest]
  | cons a rest ih =>
    simp only [dropOldest, List.length_cons]
    by_cases h : rest.length + 1 > m
    · rw [if_pos h, ih]
      have h2 : rest.length + 1 - m = (rest.length - m) + 1 := by omega
      rw [h2, List.drop_succ_cons]
    · rw [if_neg h]
      have h2 : rest.length + 1 - m = 0 := by omega
      rw [h2, List.drop_zero]

/-- Folding the log operation over a list of entries keeps exactly the
most recent maxSize entries. -/
theorem foldl_loggerLog_history (C : Nat) (entries : List ToolCallLog) :
    ∀ (h : List ToolCallLog), h.length ≤ C →
      (entries.foldl loggerLog { history := h, maxSize := C }).history =
        (h ++ entries).drop (h.length + entries.length - C) := by
  induction entries with
  | nil =>
    intro h hle
    simp [Nat.sub_eq_zero_of_le hle]
  | cons e rest ih =>
    intro h hle
    simp only [List.foldl_cons]
    have step : loggerLog { history := h, maxSize := C } e =
        { history := dropOldest C (h ++ [e]), maxSize := C } := rfl
    rw [step]
    have hlen : (dropOldest C (h ++ [e])).length ≤ C := by
      rw [dropOldest_eq_drop, List.length_drop]
      omega
    rw [ih (dropOldest C (h ++ [e])) hlen]
    rw [dropOldest_eq_drop]
    have hk : (h ++ [e]).length - C ≤ (h ++ [e]).length := Nat.sub_le _ _
    rw [← List.drop_append_of_le_length hk, List.drop_drop]
    have harr : (h ++ [e]) ++ rest = h ++ e :: rest := by simp
    rw [harr]
    congr 1
    simp only [dropOldest_eq_drop, List.length_drop, List.length_append,
      List.length_singleton, List.length_cons, List.length_nil]
    omega

/-! ## Claim C7 -/

/-- C7: For a ToolCallLogger with capacity C, after any sequence of N
calls to log(entry) with N greater than C, the in-memory history length
equals C and the retained entries are exactly the last C entries logged,
the oldest retained being the (N-C+1)-th; the default capacity is 1000. -/
theorem c7_circular_buffer (C : Nat) (entries : List ToolCallLog)
    (hN : entries.length > C) :
    (entries.foldl loggerLog (newLogger C)).history.length = C ∧
    (entries.foldl loggerLog (newLogger C)).history =
      entries.drop (entries.length - C) ∧
    (entries.foldl loggerLog (newLogger C)).history.head? =
      entries[entries.length - C]? ∧
    DEFAULT_MAX_SIZE = 1000 := by
  have hh := foldl_loggerLog_history C entries [] (by simp)
  simp only [newLogger] at *
  refine ⟨?_, ?_, ?_, rfl⟩
  · rw [hh]; simp [List.length_drop]; omega
  · rw [hh]; simp
  · rw [hh]; simp [List.head?_drop]

/-- A throwaway log entry used by the C7 witness. -/
def dummyLog (k : Nat) : ToolCallLog :=
  { timestamp := k, clientId := "cli", tool := "demo_echo", params := .obj [],
    success := true, error := none, duration := 0, requestBytes := 0,
    responseBytes := 0 }

/-- Witness for C7: three entries through a capacity-2 logger retain the
last two. -/
theorem c7_circular_buffer_witness :
    (([dummyLog 1, dummyLog 2, dummyLog 3].foldl loggerLog (newLogger 2)).history.length = 2) ∧
    ([dummyLog 1, dummyLog 2, dummyLog 3].foldl loggerLog (newLogger 2)).history =
      [dummyLog 2, dummyLog 3] := by
  have h := c7_circular_buffer 2 [dummyLog 1, dummyLog 2, dummyLog 3] (by decide)
  exact ⟨h.1, h.2.1⟩

/-! ## Plugin enable / disable (manager.ts) -/

/-- PluginManager.enablePlugin: the new manager state, the events emitted
during the call, and the plugin hooks invoked during the call. -/
def enablePlugin (s : ManagerState) (name : String) :
    Except String (ManagerState × List (String × String) × List String) :=
  match alGet s.plugins name with
  | none => .error ("Plugin not found: " ++ name)
  | some info =>
    if info.enabled then .ok (s, [], [])
    else
      .ok ({ plugins := alSet s.plugins name { info with enabled := true } },
        [("pluginEnabled", name)],
        if info.plugin.hasOnEnable then ["onEnable:" ++ name] else [])

/-- PluginManager.disablePlugin, with the same observation structure. -/
def disablePlugin (s : ManagerState) (name : String) :
    Except String (ManagerState × List (String × String) × List String) :=
  match alGet s.plugins name with
  | none => .error ("Plugin not found: " ++ name)
  | some info =>
    if info.enabled then
      .ok ({ plugins := alSet s.plugins name { info with enabled := false } },
        [("pluginDisabled", name)],
        if info.plugin.hasOnDisable then ["onDisable:" ++ name] else [])
    else .ok (s, [], [])

/-! ## Claim C10 -/

/-- C10: Calling enablePlugin on an already-enabled plugin, or
disablePlugin on an already-disabled plugin, returns successfully while
leaving all PluginManager state unchanged; the onEnable or onDisable hook
is not invoked and no pluginEnabled or pluginDisabled event is emitted for
that call. -/
theorem c10_enable_disable_noop (s : ManagerState) (name : String)
    (info : PluginInfo) (h : alGet s.plugins name = some info) :
    (info.enabled = true → enablePlugin s name = .ok (s, [], [])) ∧
    (info.enabled = false → disablePlugin s name = .ok (s, [], [])) := by
  constructor
  · intro he; simp [enablePlugin, h, he]
  · intro he; simp [disablePlugin, h, he]

/-- The demo plugin loaded in the disabled state. -/
def demoStateDisabled : ManagerState :=
  { plugins := [("demo", { plugin := demoPlugin, enabled := false, disabledTools := [] })] }

/-- Witness for C10: enabling the enabled demo plugin and disabling the
disabled one both return with no state change, no event and no hook. -/
theorem c10_enable_disable_noop_witness :
    enablePlugin demoState "demo" = .ok (demoState, [], []) ∧
    disablePlugin demoStateDisabled "demo" = .ok (demoStateDisabled, [], []) := by
  constructor
  · exact (c10_enable_disable_noop demoState "demo"
      { plugin := demoPlugin, enabled := true, disabledTools := [] } rfl).1 rfl
  · exact (c10_enable_disable_noop demoStateDisabled "demo"
      { plugin := demoPlugin, enabled := false, disabledTools := [] } rfl).2 rfl

/-! ## Plugin loading with factory support (claim C2)

The PluginModule type (src/unnamed/part_015) declares that a module's
default export is either a Plugin or a PluginFactory returning a fresh
Plugin on each call, and the proxy package exports such a factory, but the
loadPlugin present under src (manager.ts and its two-argument variant in
src/unnamed/part_013) uses module.default directly and never calls a
factory.  The factory-aware loader the spec describes is therefore
modelled here from the spec, on top of the validation, duplicate check and
init sequence of the two-argument loadPlugin in src/unnamed/part_013. -/

/-- A module's default export: a Plugin or a factory.  A factory is
modelled as a function of a creation counter so that each call yields a
distinguishable fresh instance, which stands for object identity. -/
inductive PluginDefault : Type where
  | plugin (p : Plugin)
  | factory (f : Nat → Plugin)

/-- PluginModule: the shape of a plugin package's default export. -/
structure PluginModule : Type where
  default : PluginDefault

/-- An instance stored by the loader.  instanceId records which factory
call (or the shared module object, id 0) produced the plugin, standing for
the object identity of the stored Plugin. -/
structure LoadedInstance : Type where
  plugin : Plugin
  instanceId : Nat
  enabled : Bool
  disabledTools : List String
  config : JsValue

/-- The loader's state: instances by registration name, and the number of
factory invocations made so far. -/
structure LoadState : Type where
  instances : List (String × LoadedInstance)
  factoryCalls : Nat

/-- validatePlugin from src/unnamed/part_013: the manifest string fields
must be non-empty (the truthiness checks); the typeof checks on init,
destroy, getStatus, getHelp and the commands array hold by construction in
this typed model. -/
def validatePlugin (p : Plugin) (packageName : String) : Except String Unit :=
  if p.manifest.name = "" then
    .error ("Plugin from " ++ packageName ++ " has invalid manifest.name")
  else if p.manifest.version = "" then
    .error ("Plugin " ++ p.manifest.name ++ " has invalid manifest.version")
  else if p.manifest.description = "" then
    .error ("Plugin " ++ p.manifest.name ++ " has invalid manifest.description")
  else .ok ()

/-- The common tail of loadPlugin once the Plugin has been obtained:
validate, duplicate check, init, store; on success also report how many
factory invocations the load performed. -/
def loadObtained (st : LoadState) (regName : String) (p : Plugin)
    (instId : Nat) (factoryInvocations : Nat) (cfg : JsValue)
    (disabledToolNames : List String) : Except String (LoadState × Nat) :=
  match validatePlugin p regName with
  | .error e => .error ("Failed to load plugin " ++ regName ++ ": " ++ e)
  | .ok _ =>
    match alGet st.instances regName with
    | some _ =>
      .error ("Failed to load plugin " ++ regName ++ ": Plugin already loaded: " ++ regName)
    | none =>
      match p.initResult with
      | .error e => .error ("Failed to load plugin " ++ regName ++ ": " ++ e)
      | .ok _ =>
        .ok ({ instances := st.instances ++
                 [(regName, { plugin := p, instanceId := instId, enabled := true,
                              disabledTools := disabledToolNames, config := cfg })],
               factoryCalls := st.factoryCalls + factoryInvocations },
             factoryInvocations)

/-- Modelled from the spec: loadPlugin(registrationName, moduleSpecifier,
perPluginConfig, disabledToolNames) resolves the module, obtains a Plugin -
calling the factory exactly once when a factory was exported - validates
the manifest, rejects duplicate registration names, invokes init, and
stores the instance under the registration name.  The factory-aware
obtaining step is absent from src and follows the spec; the remainder
follows loadPlugin of src/unnamed/part_013. -/
def loadPlugin (st : LoadState) (regName : String) (module : PluginModule)
    (cfg : JsValue) (disabledToolNames : List String) :
    Except String (LoadState × Nat) :=
  match module.default with
  | .plugin p => loadObtained st regName p 0 0 cfg disabledToolNames
  | .factory f =>
    loadObtained st regName (f st.factoryCalls) st.factoryCalls 1 cfg disabledToolNames

/-! ## Claim C2 -/

/-- C2: For every plugin module whose default export is a factory function
rather than a Plugin object, loadPlugin obtains the Plugin by calling the
factory exactly once (the reported invocation count of the load is one)
and the load then succeeds for a well-formed plugin; the same factory
package loaded under two different registered names yields two independent
instances (distinct creation identities). -/
theorem c2_factory_load (st : LoadState) (n1 n2 : String)
    (f : Nat → Plugin) (cfg : JsValue) (dt : List String)
    (hne : n1 ≠ n2)
    (h1free : alGet st.instances n1 = none)
    (h2free : alGet st.instances n2 = none)
    (hval1 : validatePlugin (f st.factoryCalls) n1 = .ok ())
    (hinit1 : (f st.factoryCalls).initResult = .ok ())
    (hval2 : validatePlugin (f (st.factoryCalls + 1)) n2 = .ok ())
    (hinit2 : (f (st.factoryCalls + 1)).initResult = .ok ()) :
    ∃ st1 st2 : LoadState,
      loadPlugin st n1 ⟨.factory f⟩ cfg dt = .ok (st1, 1) ∧
      loadPlugin st1 n2 ⟨.factory f⟩ cfg dt = .ok (st2, 1) ∧
      ∃ i1 i2 : LoadedInstance,
        alGet st2.instances n1 = some i1 ∧
        alGet st2.instances n2 = some i2 ∧
        i1.instanceId ≠ i2.instanceId := by
  have alGet_append_none :
      ∀ {l : List (String × LoadedInstance)} {k : String}
        (tail : List (String × LoadedInstance)), alGet l k = none →
        alGet (l ++ tail) k = alGet tail k := by
    intro l k tail hl
    induction l with
    | nil => simp
    | cons x xs ih =>
      simp only [alGet] at hl
      by_cases hx : x.1 = k
      · rw [if_pos hx] at hl; cases hl
      · rw [List.cons_append]
        simp only [alGet]
        rw [if_neg hx] at hl ⊢
        exact ih hl
  set i1 : LoadedInstance :=
    { plugin := f st.factoryCalls, instanceId := st.factoryCalls,
      enabled := true, disabledTools := dt, config := cfg } with hi1
  set i2 : LoadedInstance :=
    { plugin := f (st.factoryCalls + 1), instanceId := st.factoryCalls + 1,
      enabled := true, disabledTools := dt, config := cfg } with hi2
  refine ⟨{ instances := st.instances ++ [(n1, i1)],
            factoryCalls := st.factoryCalls + 1 },
          { instances := (st.instances ++ [(n1, i1)]) ++ [(n2, i2)],
            factoryCalls := st.factoryCalls + 1 + 1 }, ?_, ?_, i1, i2, ?_, ?_, ?_⟩
  · simp [loadPlugin, loadObtained, hval1, h1free, hinit1, hi1]
  · have hfree : alGet (st.instances ++ [(n1, i1)]) n2 = none := by
      rw [alGet_append_none _ h2free]
      simp [alGet, hne]
    simp [loadPlugin, loadObtained, hval2, hfree, hinit2, hi2]
  · have h1 : alGet ((st.instances ++ [(n1, i1)]) ++ [(n2, i2)]) n1 =
        alGet ([(n1, i1)] ++ [(n2, i2)]) n1 := by
      rw [List.append_assoc]
      exact alGet_append_none _ h1free
    rw [h1]; simp [alGet]
  · have h2 : alGet ((st.instances ++ [(n1, i1)]) ++ [(n2, i2)]) n2 =
        alGet ([(n1, i1)] ++ [(n2, i2)]) n2 := by
      rw [List.append_assoc]
      exact alGet_append_none _ h2free
    rw [h2]; simp [alGet, hne]
  · simp [hi1, hi2]

/-- A well-formed factory used by the C2 witness (the shape of the proxy
plugin's createProxyPlugin). -/
def proxyFactory : Nat → Plugin := fun _ =>
  { manifest := { name := "proxy", version := "0.2.0",
                  description := "MCP proxy - connects to external MCP servers" },
    getMcpTools := some [], hasOnEnable := false, hasOnDisable := false,
    initResult := .ok () }

/-- Witness for C2: loading the factory package twice under the names fs
and web from an empty loader state succeeds, each load calling the factory
once, and the two stored instances are distinct. -/
theorem c2_factory_load_witness :
    ∃ st1 st2 : LoadState,
      loadPlugin ⟨[], 0⟩ "fs" ⟨.factory proxyFactory⟩ (.obj []) [] = .ok (st1, 1) ∧
      loadPlugin st1 "web" ⟨.factory proxyFactory⟩ (.obj []) [] = .ok (st2, 1) ∧
      ∃ i1 i2 : LoadedInstance,
        alGet st2.instances "fs" = some i1 ∧
        alGet st2.instances "web" = some i2 ∧
        i1.instanceId ≠ i2.instanceId :=
  c2_factory_load ⟨[], 0⟩ "fs" "web" proxyFactory (.obj []) []
    (by decide) rfl rfl rfl rfl rfl rfl

/-! ## Command registry (src/packages/core/src/commands/registry.ts) -/

/-- A built-in command registered through register(): name, description,
aliases and handler. -/
structure BuiltinCommand : Type where
  name : String
  description : String
  aliases : List String := []
  args : List CommandArg := []
  execute : List String → CommandResult

/-- An entry of the registry's commands map.  The three constructors
correspond to the three sites that store a command object in the source:
register (a builtin), the direct registration in registerPluginCommand
(a plugin command whose execute wraps the plugin command and prefixes its
output) and createRouterCommand (a closure that consults the registry's
collisions map at execution time).  The stored closures are
defunctionalized; runEntry gives each constructor exactly the behaviour of
the closure built at the corresponding site. -/
inductive CommandEntry : Type where
  | builtin (cmd : BuiltinCommand)
  | pluginDirect (pluginName : String) (cmd : PluginCliCommand)
  | router (cmdName : String)

/-- The _plugin annotation of an entry (absent for builtin and router
commands, which the source leaves without a _plugin field). -/
def entryPlugin : CommandEntry → Option String
  | .builtin _ => none
  | .pluginDirect p _ => some p
  | .router _ => none

/-- The aliases of an entry: only builtins carry aliases. -/
def entryAliases : CommandEntry → List String
  | .builtin cmd => cmd.aliases
  | _ => []

/-- The CommandRegistry state: the commands map, the alias map and the
collisions map (command name to claiming plugin to original plugin
command). -/
structure RegistryState : Type where
  commands : List (String × CommandEntry) := []
  aliases : List (String × String) := []
  collisions : List (String × List (String × PluginCliCommand)) := []

/-- register: store a builtin and its aliases, rejecting any name or alias
that is already taken. -/
def registerAliases (reg : RegistryState) (primary : String) :
    List String → Except String RegistryState
  | [] => .ok reg
  | a :: rest =>
    if (alGet reg.commands a).isSome ∨ (alGet reg.aliases a).isSome then
      .error ("Command or alias already registered: " ++ a)
    else registerAliases { reg with aliases := alSet reg.aliases a primary } primary rest

/-- CommandRegistry.register for a builtin command. -/
def register (reg : RegistryState) (cmd : BuiltinCommand) :
    Except String RegistryState :=
  if (alGet reg.commands cmd.name).isSome ∨ (alGet reg.aliases cmd.name).isSome then
    .error ("Command or alias already registered: " ++ cmd.name)
  else
    registerAliases
      { reg with commands := alSet reg.commands cmd.name (.builtin cmd) }
      cmd.name cmd.aliases

/-- CommandRegistry.registerPluginCommand, ported clause by clause.  In
the first-collision branch the source reads the saved command of the
existing plugin from the collisions map it has just found absent, so that
lookup always yields undefined there and the new collisions entry starts
as an empty map; the branch then replaces the command with a router.  The
branch is guarded by the collisions map not containing the name - which
the direct-registration path below has always already ensured it does. -/
def registerPluginCommand (reg : RegistryState) (pluginName : String)
    (cmd : PluginCliCommand) : RegistryState :=
  match alGet reg.commands cmd.name with
  | some existing =>
    match entryPlugin existing with
    | none => reg
    | some existingPlugin =>
      let reg1 :=
        if (alGet reg.collisions cmd.name).isSome then reg
        else
          let existingCmd := (alGet reg.collisions cmd.name).bind
            (fun m => alGet m existingPlugin)
          { reg with
            collisions :=
              match existingCmd with
              | some c => alSet reg.collisions cmd.name [(existingPlugin, c)]
              | none => alSet reg.collisions cmd.name [],
            commands := alSet reg.commands cmd.name (.router cmd.name) }
      { reg1 with collisions :=
          match alGet reg1.collisions cmd.name with
          | some m => alSet reg1.collisions cmd.name (alSet m pluginName cmd)
          | none => reg1.collisions }
  | none =>
    let reg1 :=
      { reg with commands := alSet reg.commands cmd.name (.pluginDirect pluginName cmd) }
    if (alGet reg1.collisions cmd.name).isSome then reg1
    else { reg1 with collisions := alSet reg1.collisions cmd.name [(pluginName, cmd)] }

/-- CommandRegistry.getCollisionPlugins. -/
def getCollisionPlugins (reg : RegistryState) (cmdName : String) : List String :=
  ((alGet reg.collisions cmdName).getD []).map Prod.fst

/-- The output prefixing applied to plugin command results:
result.output truthy gives "[plugin] output", otherwise the output is
left as is. -/
def tagOutput (pluginName : String) (r : CommandResult) : CommandResult :=
  { r with output :=
      if r.output ≠ "" then "[" ++ pluginName ++ "] " ++ r.output else r.output }

/-- The usage message of a router command invoked without a selector. -/
def routerUsageResult (reg : RegistryState) (cmdName : String) : CommandResult :=
  { output := "Usage: " ++ cmdName ++ " <plugin> [args]\nAvailable plugins: " ++
      String.intercalate ", " (getCollisionPlugins reg cmdName),
    success := false }

/-- The execution semantics of a registry entry, given the registry state
(the router closure reads the collisions map at execution time). -/
def runEntry (reg : RegistryState) (entry : CommandEntry)
    (args : List String) : CommandResult :=
  match entry with
  | .builtin cmd => cmd.execute args
  | .pluginDirect p cmd => tagOutput p (cmd.execute args)
  | .router cmdName =>
    match args with
    | [] => routerUsageResult reg cmdName
    | pluginName :: restArgs =>
      if pluginName = "" then routerUsageResult reg cmdName
      else
        match (alGet reg.collisions cmdName).bind (fun m => alGet m pluginName) with
        | none =>
          { output := "Plugin \x27" ++ pluginName ++ "\x27 not found for command \x27" ++
              cmdName ++ "\x27\nAvailable: " ++
              String.intercalate ", " (getCollisionPlugins reg cmdName),
            success := false }
        | some pluginCmd => tagOutput pluginName (pluginCmd.execute restArgs)

/-- CommandRegistry.unregister: remove the command and its aliases. -/
def unregister (reg : RegistryState) (name : String) : RegistryState :=
  match alGet reg.commands name with
  | none => reg
  | some command =>
    { reg with
      aliases := (entryAliases command).foldl alErase reg.aliases,
      commands := alErase reg.commands name }

/-- One collisions entry after a plugin is removed from it: the plugin is
deleted; an empty map drops the entry. -/
def collisionCleanup (p : String) (m : List (String × PluginCliCommand)) :
    Option (List (String × PluginCliCommand)) :=
  match alErase m p with
  | [] => none
  | m2 => some m2

/-- The command-map effect of the collision-cleanup loop for one entry:
when exactly one claimant remains after the deletion, the verb is bound
back to a direct command for that claimant. -/
def revertStep (p : String) (cmds : List (String × CommandEntry))
    (kv : String × List (String × PluginCliCommand)) : List (String × CommandEntry) :=
  match alErase kv.2 p with
  | [(remainingPlugin, remainingCmd)] =>
    alSet cmds kv.1 (.pluginDirect remainingPlugin remainingCmd)
  | _ => cmds

/-- CommandRegistry.unregisterPlugin: remove every command annotated with
the plugin, then walk the collisions map deleting the plugin from each
entry - dropping entries that become empty and reverting entries left with
exactly one claimant to a direct binding.  The single source loop both
rewrites the collisions map and updates the commands map; since those are
disjoint structures, it is decomposed here into a filterMap for the former
and a fold in the same entry order for the latter. -/
def unregisterPlugin (reg : RegistryState) (p : String) : RegistryState :=
  let toRemove := (reg.commands.filter (fun kv => entryPlugin kv.2 = some p)).map Prod.fst
  let reg1 := toRemove.foldl unregister reg
  { commands := reg1.collisions.foldl (revertStep p) reg1.commands,
    aliases := reg1.aliases,
    collisions := reg1.collisions.filterMap
      (fun kv => (collisionCleanup p kv.2).map (fun m2 => (kv.1, m2))) }

/-- The whitespace class of the JS trim builtin (space, tab, line
terminators, vertical tab, form feed; the exotic Unicode spaces never
occur in the inputs under study). -/
def isJsWhitespace (c : Char) : Bool :=
  c = ' ' ∨ c = '\t' ∨ c = '\n' ∨ c = '\r' ∨ c = '\x0b' ∨ c = '\x0c'

/-- The JS String.prototype.trim builtin: strip leading and trailing
whitespace. -/
def jsTrim (s : String) : String :=
  ⟨((s.data.dropWhile isJsWhitespace).reverse.dropWhile isJsWhitespace).reverse⟩

/-- The JS String.prototype.toLowerCase builtin, per character. -/
def jsToLower (s : String) : String :=
  ⟨s.data.map Char.toLower⟩

/-- CommandRegistry.get: lowercase direct lookup, then alias indirection
(whose target may be absent, in which case the source returns that absent
result without falling through), then a case-insensitive scan. -/
def getCmd (reg : RegistryState) (nameOrAlias : String) : Option CommandEntry :=
  let lower := jsToLower nameOrAlias
  match alGet reg.commands lower with
  | some direct => some direct
  | none =>
    match alGet reg.aliases lower with
    | some primaryName => alGet reg.commands primaryName
    | none => (reg.commands.find? (fun kv => jsToLower kv.1 = lower)).map Prod.snd

/-! ## Input parsing and execution (registry.ts parseInput / execute) -/

/-- The tokenizer state: completed parts, the current token, and the
quoting state (quoteChar is the open quote, reset on close). -/
structure ParseState : Type where
  parts : List String
  current : List Char
  inQuotes : Bool
  quoteChar : Option Char

/-- One character step of parseInput, in the source's condition order:
opening quote, closing quote, separating space, ordinary character. -/
def parseStep (st : ParseState) (c : Char) : ParseState :=
  if (c = '"' ∨ c = '\x27') ∧ st.inQuotes = false then
    { st with inQuotes := true, quoteChar := some c }
  else if st.inQuotes = true ∧ some c = st.quoteChar then
    { st with inQuotes := false, quoteChar := none }
  else if c = ' ' ∧ st.inQuotes = false then
    if st.current ≠ [] then
      { st with parts := st.parts ++ [⟨st.current⟩], current := [] }
    else st
  else { st with current := st.current ++ [c] }

/-- CommandRegistry.parseInput: fold the step over the characters and
flush the trailing token if non-empty. -/
def parseInput (input : String) : List String :=
  let fin := input.data.foldl parseStep
    { parts := [], current := [], inQuotes := false, quoteChar := none }
  if fin.current ≠ [] then fin.parts ++ [⟨fin.current⟩] else fin.parts

/-- CommandRegistry.execute: trim, treat empty input as a successful
no-op, tokenize, resolve and run.  The result carries the dispatched verb
(none when no verb ran).  An empty token list - possible for input that is
only quote characters - makes the source call toLowerCase on undefined,
an uncaught TypeError, modelled by the error case. -/
def executeLine (reg : RegistryState) (input : String) :
    Except Unit (CommandResult × Option String) :=
  let trimmed := jsTrim input
  if trimmed = "" then .ok ({ output := "", success := true }, none)
  else
    match parseInput trimmed with
    | [] => .error ()
    | cmdName :: args =>
      match getCmd reg cmdName with
      | none =>
        .ok ({ output := "Unknown command: " ++ cmdName ++
                 ". Type \x27help\x27 for available commands.",
               success := false }, none)
      | some command => .ok (runEntry reg command args, some cmdName)

/-! ## Claim C5 -/

/-- The connect command of the browser plugin, as built by the
createPluginCommand fixture of registry.test.ts. -/
def connectCmdBrowser : PluginCliCommand :=
  { name := "connect", description := "Plugin command connect",
    execute := fun _ => { output := "executed connect", success := true } }

/-- The connect command of the proxy plugin, same fixture. -/
def connectCmdProxy : PluginCliCommand :=
  { name := "connect", description := "Plugin command connect",
    execute := fun _ => { output := "executed connect", success := true } }

/-- The registry after browser and proxy both register the verb connect,
exactly as in the collision tests of registry.test.ts. -/
def collidedReg : RegistryState :=
  registerPluginCommand
    (registerPluginCommand {} "browser" connectCmdBrowser)
    "proxy" connectCmdProxy

/-- C5 evaluated at its failing input: after browser and proxy both claim
connect, the collisions map records both plugins, but the commands map
still holds browser's direct command - the first-collision branch of
registerPluginCommand is dead because the direct registration already put
the name into the collisions map, so no router is ever installed.
Executing connect with no selector therefore runs browser's handler and
succeeds with "[browser] executed connect" instead of failing with a
message enumerating the claimants, contradicting the claim and the
repository's own tests. -/
theorem c5_router_never_created :
    getCollisionPlugins collidedReg "connect" = ["browser", "proxy"] ∧
    alGet collidedReg.commands "connect" =
      some (.pluginDirect "browser" connectCmdBrowser) ∧
    executeLine collidedReg "connect" =
      .ok ({ output := "[browser] executed connect", success := true }, some "connect") ∧
    executeLine collidedReg "connect proxy" =
      .ok ({ output := "[browser] executed connect", success := true }, some "connect") := by
  refine ⟨rfl, rfl, rfl, rfl⟩

/-! ## Claim C9 -/

/-- Folding the tokenizer over ordinary characters (no quote, no space)
outside a quoted span accumulates them into the current token. -/
theorem foldl_parseStep_plain (chars : List Char) :
    ∀ st : ParseState, st.inQuotes = false →
      (∀ c ∈ chars, c ≠ ' ' ∧ c ≠ '"' ∧ c ≠ '\x27') →
      chars.foldl parseStep st = { st with current := st.current ++ chars } := by
  induction chars with
  | nil => intro st h1 _; simp
  | cons c rest ih =>
    intro st h1 h2
    have hc := h2 c (by simp)
    simp only [List.foldl_cons]
    have hstep : parseStep st c = { st with current := st.current ++ [c] } := by
      simp [parseStep, h1, hc.1, hc.2.1, hc.2.2]
    rw [hstep, ih { st with current := st.current ++ [c] } h1
      (fun c2 hc2 => h2 c2 (by simp [hc2]))]
    simp

/-- Folding the tokenizer over characters other than the open quote inside
a quoted span accumulates them into the current token, spaces included. -/
theorem foldl_parseStep_quoted (chars : List Char) (q : Char) :
    ∀ st : ParseState, st.inQuotes = true → st.quoteChar = some q →
      (∀ c ∈ chars, c ≠ q) →
      chars.foldl parseStep st = { st with current := st.current ++ chars } := by
  induction chars with
  | nil => intro st _ _ _; simp
  | cons c rest ih =>
    intro st h1 h2 hc
    have hcq := hc c (by simp)
    simp only [List.foldl_cons]
    have hstep : parseStep st c = { st with current := st.current ++ [c] } := by
      simp [parseStep, h1, h2, hcq]
    rw [hstep, ih { st with current := st.current ++ [c] } h1 h2
      (fun c2 hc2 => hc c2 (by simp [hc2]))]
    simp

/-- C9: For every input line, command execution tokenizes the line
respecting single- and double-quoted spans, stripping the quote characters
with no escape character, so that a quoted argument containing spaces
(indeed any non-empty argument free of its own quote character) is
delivered as a single argument; an empty or whitespace-only input line
returns output "" with success true and dispatches no verb. -/
theorem c9_tokenization :
    (∀ (reg : RegistryState) (input : String), jsTrim input = "" →
        executeLine reg input = .ok ({ output := "", success := true }, none)) ∧
    (∀ (verb s : String) (q : Char), (q = '"' ∨ q = '\x27') →
        verb ≠ "" →
        (∀ c ∈ verb.data, c ≠ ' ' ∧ c ≠ '"' ∧ c ≠ '\x27') →
        s ≠ "" → (∀ c ∈ s.data, c ≠ q) →
        parseInput (verb ++ " " ++ (⟨[q]⟩ : String) ++ s ++ (⟨[q]⟩ : String)) =
          [verb, s]) := by
  constructor
  · intro reg input h
    simp [executeLine, h]
  · intro verb s q hq hv hvc hs hsc
    have hvd : verb.data ≠ [] := by
      intro h0
      apply hv
      cases verb with | mk d => simp only at h0; subst h0; rfl
    have hsd : s.data ≠ [] := by
      intro h0
      apply hs
      cases s with | mk d => simp only at h0; subst h0; rfl
    have hdata : (verb ++ " " ++ (⟨[q]⟩ : String) ++ s ++ (⟨[q]⟩ : String)).data =
        (((verb.data ++ [' ']) ++ [q]) ++ s.data) ++ [q] := by
      simp [String.data_append]
    have e1 : verb.data.foldl parseStep
        { parts := [], current := [], inQuotes := false, quoteChar := none } =
        { parts := [], current := verb.data, inQuotes := false, quoteChar := none } := by
      rw [foldl_parseStep_plain verb.data _ rfl hvc]
      rfl
    have e2 : [' '].foldl parseStep
        { parts := [], current := verb.data, inQuotes := false, quoteChar := none } =
        { parts := [verb], current := [], inQuotes := false, quoteChar := none } := by
      simp only [List.foldl_cons, List.foldl_nil]
      simp [parseStep, hvd]
    have e3 : [q].foldl parseStep
        { parts := [verb], current := [], inQuotes := false, quoteChar := none } =
        { parts := [verb], current := [], inQuotes := true, quoteChar := some q } := by
      simp only [List.foldl_cons, List.foldl_nil]
      rcases hq with rfl | rfl <;> simp [parseStep]
    have e4 : s.data.foldl parseStep
        { parts := [verb], current := [], inQuotes := true, quoteChar := some q } =
        { parts := [verb], current := s.data, inQuotes := true, quoteChar := some q } := by
      rw [foldl_parseStep_quoted s.data q _ rfl rfl hsc]
      rfl
    have e5 : [q].foldl parseStep
        { parts := [verb], current := s.data, inQuotes := true, quoteChar := some q } =
        { parts := [verb], current := s.data, inQuotes := false, quoteChar := none } := by
      simp only [List.foldl_cons, List.foldl_nil]
      simp [parseStep]
    rw [parseInput, hdata]
    rw [List.foldl_append, List.foldl_append, List.foldl_append, List.foldl_append]
    rw [e1, e2, e3, e4, e5]
    simp [hsd]

/-! ## Association-list lemmas for the registry proofs -/

theorem alGet_none_iff {β : Type} {l : List (String × β)} {v : String} :
    alGet l v = none ↔ ∀ kv ∈ l, kv.1 ≠ v := by
  induction l with
  | nil => simp [alGet]
  | cons x xs ih =>
    simp only [alGet]
    by_cases hx : x.1 = v
    · rw [if_pos hx]
      constructor
      · intro h; cases h
      · intro h; exact absurd hx (h x (by simp))
    · rw [if_neg hx, ih]
      constructor
      · intro h kv hkv
        rcases List.mem_cons.mp hkv with rfl | hm
        · exact hx
        · exact h kv hm
      · intro h kv hkv
        exact h kv (List.mem_cons_of_mem x hkv)

theorem alGet_mem {β : Type} {l : List (String × β)} {k : String} {b : β}
    (h : alGet l k = some b) : (k, b) ∈ l := by
  induction l with
  | nil => cases h
  | cons x xs ih =>
    simp only [alGet] at h
    by_cases hx : x.1 = k
    · rw [if_pos hx] at h
      have hb : x.2 = b := by cases h; rfl
      exact List.mem_cons.mpr (Or.inl (by cases x; simp_all))
    · rw [if_neg hx] at h
      exact List.mem_cons.mpr (Or.inr (ih h))

theorem alGet_alSet_self {β : Type} (l : List (String × β)) (k : String) (e : β) :
    alGet (alSet l k e) k = some e := by
  induction l with
  | nil => simp [alSet, alGet]
  | cons x xs ih =>
    simp only [alSet]
    by_cases hx : x.1 = k
    · rw [if_pos hx]; simp [alGet, hx]
    · rw [if_neg hx]; simp only [alGet]; rw [if_neg hx]; exact ih

theorem alGet_alSet_ne {β : Type} (l : List (String × β)) (k v : String) (e : β)
    (h : k ≠ v) : alGet (alSet l k e) v = alGet l v := by
  induction l with
  | nil => simp [alSet, alGet, h]
  | cons x xs ih =>
    simp only [alSet]
    by_cases hx : x.1 = k
    · rw [if_pos hx]
      simp only [alGet]
      rw [if_neg (hx ▸ h), if_neg (hx ▸ h)]
    · rw [if_neg hx]
      simp only [alGet]
      by_cases hv : x.1 = v
      · rw [if_pos hv, if_pos hv]
      · rw [if_neg hv, if_neg hv]; exact ih

theorem mem_alErase {β : Type} {l : List (String × β)} {k : String}
    {kv : String × β} (h : kv ∈ alErase l k) : kv ∈ l := by
  induction l with
  | nil => cases h
  | cons x xs ih =>
    simp only [alErase] at h
    by_cases hx : x.1 = k
    · rw [if_pos hx] at h
      exact List.mem_cons_of_mem x h
    · rw [if_neg hx] at h
      rcases List.mem_cons.mp h with rfl | hm
      · exact List.mem_cons_self _ _
      · exact List.mem_cons_of_mem x (ih hm)

theorem mem_alSet {β : Type} {l : List (String × β)} {k : String} {e : β}
    {kv : String × β} (h : kv ∈ alSet l k e) : kv ∈ l ∨ kv = (k, e) := by
  induction l with
  | nil =>
    simp only [alSet] at h
    rcases List.mem_cons.mp h with rfl | hm
    · exact Or.inr rfl
    · cases hm
  | cons x xs ih =>
    simp only [alSet] at h
    by_cases hx : x.1 = k
    · rw [if_pos hx] at h
      rcases List.mem_cons.mp h with rfl | hm
      · exact Or.inr (by rw [hx])
      · exact Or.inl (List.mem_cons_of_mem x hm)
    · rw [if_neg hx] at h
      rcases List.mem_cons.mp h with rfl | hm
      · exact Or.inl (List.mem_cons_self _ _)
      · rcases ih hm with h2 | h2
        · exact Or.inl (List.mem_cons_of_mem x h2)
        · exact Or.inr h2

theorem alGet_alErase_ne {β : Type} (l : List (String × β)) (k v : String)
    (h : k ≠ v) : alGet (alErase l k) v = alGet l v := by
  induction l with
  | nil => simp [alErase]
  | cons x xs ih =>
    simp only [alErase]
    by_cases hx : x.1 = k
    · rw [if_pos hx]
      simp only [alGet]
      rw [if_neg (hx ▸ h)]
    · rw [if_neg hx]
      simp only [alGet]
      by_cases hv : x.1 = v
      · rw [if_pos hv, if_pos hv]
      · rw [if_neg hv, if_neg hv]; exact ih

theorem alGet_alErase_self {β : Type} (l : List (String × β)) (k : String)
    (hnd : keysNodup l) : alGet (alErase l k) k = none := by
  induction l with
  | nil => simp [alErase, alGet]
  | cons x xs ih =>
    simp only [keysNodup, List.map_cons, List.nodup_cons] at hnd
    simp only [alErase]
    by_cases hx : x.1 = k
    · rw [if_pos hx]
      rw [alGet_none_iff]
      intro kv hkv he
      exact hnd.1 (by rw [hx, ← he]; exact List.mem_map.mpr ⟨kv, hkv, rfl⟩)
    · rw [if_neg hx]
      simp only [alGet]
      rw [if_neg hx]
      exact ih hnd.2

theorem alErase_preserve_none {β : Type} (l : List (String × β)) (k v : String)
    (h : alGet l v = none) : alGet (alErase l k) v = none := by
  rw [alGet_none_iff] at h ⊢
  exact fun kv hkv => h kv (mem_alErase hkv)

theorem keysNodup_alErase {β : Type} (l : List (String × β)) (k : String)
    (hnd : keysNodup l) : keysNodup (alErase l k) := by
  induction l with
  | nil => simpa [alErase] using hnd
  | cons x xs ih =>
    simp only [keysNodup, List.map_cons, List.nodup_cons] at hnd
    simp only [alErase]
    by_cases hx : x.1 = k
    · rw [if_pos hx]; exact hnd.2
    · rw [if_neg hx]
      simp only [keysNodup, List.map_cons, List.nodup_cons]
      refine ⟨?_, ih hnd.2⟩
      intro hmem
      rcases List.mem_map.mp hmem with ⟨kv, hkv, hke⟩
      exact hnd.1 (by rw [← hke]; exact List.mem_map.mpr ⟨kv, mem_alErase hkv, rfl⟩)

theorem alGet_foldl_alErase_none {β : Type} (xs : List String) :
    ∀ (l : List (String × β)) (v : String), alGet l v = none →
      alGet (xs.foldl alErase l) v = none := by
  induction xs with
  | nil => intro l v h; exact h
  | cons x rest ih =>
    intro l v h
    exact ih _ v (alErase_preserve_none l x v h)

/-! ## unregister / unregisterPlugin lemmas -/

theorem unregister_collisions (r : RegistryState) (w : String) :
    (unregister r w).collisions = r.collisions := by
  unfold unregister
  cases alGet r.commands w <;> rfl

theorem unregister_aliases_none (r : RegistryState) (w v : String)
    (h : alGet r.aliases v = none) : alGet (unregister r w).aliases v = none := by
  unfold unregister
  cases alGet r.commands w with
  | none => exact h
  | some c => exact alGet_foldl_alErase_none _ _ v h

theorem unregister_commands_none (r : RegistryState) (w v : String)
    (h : alGet r.commands v = none) : alGet (unregister r w).commands v = none := by
  unfold unregister
  cases alGet r.commands w with
  | none => exact h
  | some c => exact alErase_preserve_none _ w v h

theorem unregister_commands_nodup (r : RegistryState) (w : String)
    (h : keysNodup r.commands) : keysNodup (unregister r w).commands := by
  unfold unregister
  cases alGet r.commands w with
  | none => exact h
  | some c => exact keysNodup_alErase _ w h

theorem mem_unregister_commands (r : RegistryState) (w : String)
    {kv : String × CommandEntry} (h : kv ∈ (unregister r w).commands) :
    kv ∈ r.commands := by
  unfold unregister at h
  cases he : alGet r.commands w with
  | none => rw [he] at h; exact h
  | some c => rw [he] at h; exact mem_alErase h

theorem foldl_unregister_collisions (names : List String) :
    ∀ r : RegistryState, (names.foldl unregister r).collisions = r.collisions := by
  induction names with
  | nil => intro r; rfl
  | cons w rest ih => intro r; rw [List.foldl_cons, ih, unregister_collisions]

theorem foldl_unregister_aliases_none (names : List String) :
    ∀ (r : RegistryState) (v : String), alGet r.aliases v = none →
      alGet ((names.foldl unregister r)).aliases v = none := by
  induction names with
  | nil => intro r v h; exact h
  | cons w rest ih =>
    intro r v h
    exact ih _ v (unregister_aliases_none r w v h)

theorem foldl_unregister_commands_none (names : List String) :
    ∀ (r : RegistryState) (v : String), alGet r.commands v = none →
      alGet ((names.foldl unregister r)).commands v = none := by
  induction names with
  | nil => intro r v h; exact h
  | cons w rest ih =>
    intro r v h
    exact ih _ v (unregister_commands_none r w v h)

theorem foldl_unregister_commands_nodup (names : List String) :
    ∀ r : RegistryState, keysNodup r.commands →
      keysNodup ((names.foldl unregister r)).commands := by
  induction names with
  | nil => intro r h; exact h
  | cons w rest ih =>
    intro r h
    exact ih _ (unregister_commands_nodup r w h)

theorem foldl_unregister_erased (names : List String) :
    ∀ (r : RegistryState) (v : String), keysNodup r.commands → v ∈ names →
      alGet ((names.foldl unregister r)).commands v = none := by
  induction names with
  | nil => intro r v _ hv; cases hv
  | cons w rest ih =>
    intro r v hnd hv
    rcases List.mem_cons.mp hv with rfl | hv2
    · rw [List.foldl_cons]
      refine foldl_unregister_commands_none rest _ v ?_
      unfold unregister
      cases he : alGet r.commands v with
      | none => exact he
      | some c => exact alGet_alErase_self _ v hnd
    · exact ih _ v (unregister_commands_nodup r w hnd) hv2

theorem foldl_unregister_commands_notin (names : List String) :
    ∀ (r : RegistryState) (v : String), v ∉ names →
      alGet ((names.foldl unregister r)).commands v = alGet r.commands v := by
  induction names with
  | nil => intro r v _; rfl
  | cons w rest ih =>
    intro r v hv
    rw [List.foldl_cons, ih _ v (fun h => hv (List.mem_cons_of_mem w h))]
    unfold unregister
    cases he : alGet r.commands w with
    | none => rfl
    | some c =>
      exact alGet_alErase_ne _ w v (fun hwv => hv (hwv ▸ List.mem_cons_self w rest))

theorem mem_foldl_unregister (names : List String) :
    ∀ (r : RegistryState) (kv : String × CommandEntry),
      kv ∈ ((names.foldl unregister r)).commands → kv ∈ r.commands := by
  induction names with
  | nil => intro r kv h; exact h
  | cons w rest ih =>
    intro r kv h
    exact mem_unregister_commands r w (ih _ kv h)

theorem foldl_revertStep_keys_ne
    (entries : List (String × List (String × PluginCliCommand))) (p v : String)
    (hne : ∀ kv ∈ entries, kv.1 ≠ v) :
    ∀ cmds, alGet (entries.foldl (revertStep p) cmds) v = alGet cmds v := by
  induction entries with
  | nil => intro cmds; rfl
  | cons kv rest ih =>
    intro cmds
    rw [List.foldl_cons, ih (fun kv2 h => hne kv2 (List.mem_cons_of_mem kv h))]
    unfold revertStep
    rcases he : alErase kv.2 p with _ | ⟨⟨q, cq⟩, tail⟩
    · rfl
    · cases tail with
      | nil => exact alGet_alSet_ne _ kv.1 v _ (hne kv (List.mem_cons_self _ _))
      | cons b tail2 => rfl

theorem foldl_revertStep_none
    (entries : List (String × List (String × PluginCliCommand))) (p v : String)
    (hno : ∀ kv ∈ entries, kv.1 = v →
      ∀ q cq, alErase kv.2 p ≠ [(q, cq)]) :
    ∀ cmds, alGet cmds v = none →
      alGet (entries.foldl (revertStep p) cmds) v = none := by
  induction entries with
  | nil => intro cmds h; exact h
  | cons kv rest ih =>
    intro cmds h
    rw [List.foldl_cons]
    refine ih (fun kv2 h2 => hno kv2 (List.mem_cons_of_mem kv h2)) _ ?_
    unfold revertStep
    rcases he : alErase kv.2 p with _ | ⟨⟨q, cq⟩, tail⟩
    · exact h
    · cases tail with
      | nil =>
        by_cases hk : kv.1 = v
        · exact absurd he (hno kv (List.mem_cons_self _ _) hk q cq)
        · rw [alGet_alSet_ne _ kv.1 v _ hk]; exact h
      | cons b tail2 => exact h

theorem foldl_revertStep_set
    (entries : List (String × List (String × PluginCliCommand))) (p v : String)
    (m : List (String × PluginCliCommand)) (q : String) (cq : PluginCliCommand) :
    keysNodup entries → alGet entries v = some m → alErase m p = [(q, cq)] →
      ∀ cmds, alGet (entries.foldl (revertStep p) cmds) v =
        some (.pluginDirect q cq) := by
  induction entries with
  | nil => intro _ hm; cases hm
  | cons kv rest ih =>
    intro hnd hm he cmds
    simp only [keysNodup, List.map_cons, List.nodup_cons] at hnd
    simp only [alGet] at hm
    rw [List.foldl_cons]
    by_cases hk : kv.1 = v
    · rw [if_pos hk] at hm
      have hm2 : kv.2 = m := by cases hm; rfl
      rw [foldl_revertStep_keys_ne rest p v ?_]
      · unfold revertStep
        rw [hm2, he, hk]
        exact alGet_alSet_self _ v _
      · intro kv2 h2 hke
        exact hnd.1 (by rw [hk, ← hke]; exact List.mem_map.mpr ⟨kv2, h2, rfl⟩)
    · rw [if_neg hk] at hm
      exact ih hnd.2 hm he _

theorem alGet_filterMap_cleanup
    (l : List (String × List (String × PluginCliCommand))) (p v : String)
    (hnd : keysNodup l) :
    alGet (l.filterMap
        (fun kv => (collisionCleanup p kv.2).map (fun m2 => (kv.1, m2)))) v =
      (alGet l v).bind (collisionCleanup p) := by
  induction l with
  | nil => rfl
  | cons kv rest ih =>
    simp only [keysNodup, List.map_cons, List.nodup_cons] at hnd
    rw [List.filterMap_cons]
    cases hc : collisionCleanup p kv.2 with
    | none =>
      simp only [Option.map_none']
      rw [ih hnd.2]
      simp only [alGet]
      by_cases hk : kv.1 = v
      · rw [if_pos hk]
        have hrest : alGet rest v = none := by
          rw [alGet_none_iff]
          intro kv2 h2 hke
          exact hnd.1 (by rw [hk, ← hke]; exact List.mem_map.mpr ⟨kv2, h2, rfl⟩)
        rw [hrest]
        simp only [Option.some_bind, Option.none_bind]
        rw [hc]
      · rw [if_neg hk]
    | some m2 =>
      simp only [Option.map_some']
      simp only [alGet]
      by_cases hk : kv.1 = v
      · rw [if_pos hk, if_pos hk]
        simp only [Option.some_bind]
        rw [hc]
      · rw [if_neg hk, if_neg hk]
        exact ih hnd.2

theorem mem_foldl_revertStep
    (entries : List (String × List (String × PluginCliCommand))) (p : String) :
    ∀ (cmds : List (String × CommandEntry)) (kv : String × CommandEntry),
      kv ∈ entries.foldl (revertStep p) cmds →
      kv ∈ cmds ∨ kv.1 ∈ entries.map Prod.fst := by
  induction entries with
  | nil => intro cmds kv h; exact Or.inl h
  | cons kv0 rest ih =>
    intro cmds kv h
    rw [List.foldl_cons] at h
    rcases ih _ kv h with h2 | h2
    · unfold revertStep at h2
      rcases he : alErase kv0.2 p with _ | ⟨⟨q, cq⟩, tail⟩
      · rw [he] at h2; exact Or.inl h2
      · cases tail with
        | nil =>
          rw [he] at h2
          rcases mem_alSet h2 with h3 | h3
          · exact Or.inl h3
          · exact Or.inr (by rw [h3]; simp)
        | cons b tail2 => rw [he] at h2; exact Or.inl h2
    · exact Or.inr (by simp [h2])

/-! ## Claim C6 -/

/-- C6: After unregistering all commands of a plugin, every verb that
plugin claimed alone is removed from the commands map and from the
collisions map and no longer resolves through get; every router verb left
with exactly one remaining claimant reverts to a direct binding that
routes to the remaining plugin without a selector argument, with that
plugin's output prefix; and every verb left with zero claimants (a verb
claimed alone by the unregistered plugin) disappears from the registry. -/
theorem c6_unregister_plugin (reg : RegistryState) (p : String)
    (hndC : keysNodup reg.commands) (hndK : keysNodup reg.collisions) :
    (∀ v c, alGet reg.commands v = some (.pluginDirect p c) →
        alGet reg.collisions v = some [(p, c)] →
        alGet (unregisterPlugin reg p).commands v = none ∧
        alGet (unregisterPlugin reg p).collisions v = none) ∧
    (∀ v c, alGet reg.commands v = some (.pluginDirect p c) →
        alGet reg.collisions v = some [(p, c)] →
        jsToLower v = v →
        alGet reg.aliases v = none →
        (∀ kv ∈ reg.commands, jsToLower kv.1 = v → kv.1 = v) →
        (∀ kv ∈ reg.collisions, jsToLower kv.1 = v → kv.1 = v) →
        getCmd (unregisterPlugin reg p) v = none) ∧
    (∀ v m q cq, alGet reg.commands v = some (.router v) →
        alGet reg.collisions v = some m →
        alErase m p = [(q, cq)] →
        alGet (unregisterPlugin reg p).commands v = some (.pluginDirect q cq) ∧
        alGet (unregisterPlugin reg p).collisions v = some [(q, cq)] ∧
        (∀ args, runEntry (unregisterPlugin reg p) (.pluginDirect q cq) args =
            tagOutput q (cq.execute args))) := by
  have hcoll1 :
      ∀ names : List String, ((names.foldl unregister reg)).collisions = reg.collisions :=
    fun names => foldl_unregister_collisions names reg
  have claimedAloneErased :
      ∀ v c, alGet reg.commands v = some (.pluginDirect p c) →
        alGet reg.collisions v = some [(p, c)] →
        alGet (unregisterPlugin reg p).commands v = none := by
    intro v c hcmd hcol
    unfold unregisterPlugin
    simp only [foldl_unregister_collisions]
    apply foldl_revertStep_none
    · intro kv hkv hk q cq habs
      have hkv2 : kv.2 = [(p, c)] := by
        have hmem : (v, kv.2) ∈ reg.collisions := by
          rw [← hk]; exact hkv
        exact keysNodup_eq hndK hmem (alGet_mem hcol)
      rw [hkv2] at habs
      simp [alErase] at habs
    · apply foldl_unregister_erased _ reg v hndC
      refine List.mem_map.mpr ⟨(v, .pluginDirect p c), ?_, rfl⟩
      rw [List.mem_filter]
      exact ⟨alGet_mem hcmd, by simp [entryPlugin]⟩
  have claimedAloneCollGone :
      ∀ v c, alGet reg.collisions v = some [(p, c)] →
        alGet (unregisterPlugin reg p).collisions v = none := by
    intro v c hcol
    unfold unregisterPlugin
    simp only [foldl_unregister_collisions]
    rw [alGet_filterMap_cleanup _ p v hndK, hcol]
    simp [collisionCleanup, alErase]
  refine ⟨?_, ?_, ?_⟩
  · intro v c hcmd hcol
    exact ⟨claimedAloneErased v c hcmd hcol, claimedAloneCollGone v c hcol⟩
  · intro v c hcmd hcol hlow halias hci hcic
    have hcmdnone := claimedAloneErased v c hcmd hcol
    have haliasnone : alGet (unregisterPlugin reg p).aliases v = none := by
      unfold unregisterPlugin
      exact foldl_unregister_aliases_none _ reg v halias
    have hfind :
        ((unregisterPlugin reg p).commands.find?
          (fun kv => jsToLower kv.1 = v)) = none := by
      rw [List.find?_eq_none]
      intro kv hkv
      simp only [decide_eq_true_eq]
      intro hkl
      have hkey : kv.1 = v := by
        have hmem2 := hkv
        unfold unregisterPlugin at hmem2
        rcases mem_foldl_revertStep _ p _ kv hmem2 with h2 | h2
        · exact hci kv (mem_foldl_unregister _ reg kv h2) hkl
        · rw [foldl_unregister_collisions] at h2
          rcases List.mem_map.mp h2 with ⟨kv0, hkv0, hke⟩
          exact hcic kv0 hkv0 (by rw [hke]; exact hkl) ▸ hke.symm ▸ rfl
      have : alGet (unregisterPlugin reg p).commands v ≠ none := by
        intro hnone
        exact (alGet_none_iff.mp hnone) kv hkv hkey
      exact this hcmdnone
    unfold getCmd
    simp only [hlow, hcmdnone, haliasnone, hfind, Option.map_none']
  · intro v m q cq hcmd hcol hm
    have hnotin : v ∉ ((reg.commands.filter
        (fun kv => entryPlugin kv.2 = some p)).map Prod.fst) := by
      intro hmem
      rcases List.mem_map.mp hmem with ⟨kv0, hkv0, hke⟩
      rw [List.mem_filter] at hkv0
      have : kv0.2 = CommandEntry.router v := by
        have hmem2 : (v, kv0.2) ∈ reg.commands := by rw [← hke]; exact hkv0.1
        exact keysNodup_eq hndC hmem2 (alGet_mem hcmd)
      rw [this] at hkv0
      simp [entryPlugin] at hkv0
    refine ⟨?_, ?_, fun args => rfl⟩
    · unfold unregisterPlugin
      simp only [foldl_unregister_collisions]
      exact foldl_revertStep_set reg.collisions p v m q cq hndK hcol hm _
    · unfold unregisterPlugin
      simp only [foldl_unregister_collisions]
      rw [alGet_filterMap_cleanup _ p v hndK, hcol]
      simp only [Option.some_bind, collisionCleanup, hm]

/-- The status command of plugin a, used by the C6 witness. -/
def statusCmdA : PluginCliCommand :=
  { name := "status", description := "status of a",
    execute := fun _ => { output := "a status", success := true } }

/-- The status command of plugin b, used by the C6 witness. -/
def statusCmdB : PluginCliCommand :=
  { name := "status", description := "status of b",
    execute := fun _ => { output := "b status", success := true } }

/-- The solo command claimed only by plugin a, used by the C6 witness. -/
def soloCmd : PluginCliCommand :=
  { name := "solo", description := "solo verb of a",
    execute := fun _ => { output := "solo output", success := true } }

/-- A registry holding a verb claimed alone by plugin a and a router verb
claimed by plugins a and b. -/
def c6Reg : RegistryState :=
  { commands := [("solo", .pluginDirect "a" soloCmd), ("status", .router "status")],
    aliases := [],
    collisions := [("solo", [("a", soloCmd)]),
                   ("status", [("a", statusCmdA), ("b", statusCmdB)])] }

/-- Witness for C6: unregistering plugin a removes solo entirely (it no
longer resolves) and reverts status to a direct binding on plugin b. -/
theorem c6_unregister_plugin_witness :
    alGet (unregisterPlugin c6Reg "a").commands "solo" = none ∧
    alGet (unregisterPlugin c6Reg "a").collisions "solo" = none ∧
    getCmd (unregisterPlugin c6Reg "a") "solo" = none ∧
    alGet (unregisterPlugin c6Reg "a").commands "status" =
      some (.pluginDirect "b" statusCmdB) ∧
    alGet (unregisterPlugin c6Reg "a").collisions "status" = some [("b", statusCmdB)] := by
  have h := c6_unregister_plugin c6Reg "a"
    (by show (c6Reg.commands.map Prod.fst).Nodup; decide)
    (by show (c6Reg.collisions.map Prod.fst).Nodup; decide)
  have ha := h.1 "solo" soloCmd rfl rfl
  have ha2 := h.2.1 "solo" soloCmd rfl rfl (by decide) rfl
    (by intro kv hkv; fin_cases hkv <;> (simp; try decide))
    (by intro kv hkv; fin_cases hkv <;> (simp; try decide))
  have hb := h.2.2 "status" [("a", statusCmdA), ("b", statusCmdB)] "b" statusCmdB
    rfl rfl rfl
  exact ⟨ha.1, ha.2, ha2, hb.1, hb.2.1⟩

/-- Witness for C1: in the demo state the echo tool is visible under the
name demo_echo, annotated with its plugin. -/
theorem c1_tool_visibility_witness :
    ({ name := "demo_echo", description := "echo a message", inputSchema := .obj [],
       handler := fun _ => .ok (.str "hi"), plugin := "demo" } : PrefTool) ∈
      getMcpTools demoState :=
  (c1_tool_visibility demoState "demo"
    { plugin := demoPlugin, enabled := true, disabledTools := [] } echoTool
    (by show (demoState.plugins.map Prod.fst).Nodup; decide)
    (List.mem_cons_self _ _)
    (List.mem_cons_self _ _)).2.1 rfl rfl

/-- Witness for C9: a whitespace-only line is a successful no-op, and a
double-quoted argument with a space comes through as one token. -/
theorem c9_tokenization_witness :
    executeLine {} "   " = .ok ({ output := "", success := true }, none) ∧
    parseInput "call \"hello world\"" = ["call", "hello world"] := by
  constructor
  · exact c9_tokenization.1 {} "   " (by decide)
  · have h := c9_tokenization.2 "call" "hello world" '"' (Or.inl rfl)
      (by decide) (by decide) (by decide) (by decide)
    exact h

end McpCli
